import Mathlib

/-!
Verification of the DataSelector selection / zoom state machine.

The repository contains two parallel widget implementations:

* the fixed-axis variant (`PlotForDataSelector` coupled with `UIforSelector`), and
* the variable-axis variant (`DataSelector`), in which the X/Y attributes are
  selectable and the zoom history is keyed per compound and per attribute pair.

This file shallowly embeds the state-bearing parts of both variants:

* JavaScript `Map`s are modelled as insertion-ordered association lists and
  `Set`s as insertion-ordered duplicate-free lists, with operations
  (`jsMapGet`, `jsMapSet`, `jsMapDelete`, `jsSetAdd`, `jsSetDelete`) that
  mirror the semantics of `Map.prototype.get/set/delete` and
  `Set.prototype.add/delete` (insertion order preserved, `set` on an existing
  key updates in place).
* Dates are epoch milliseconds (`Int`, the value of `Date.prototype.valueOf`);
  numeric plot values are exact rationals (`Rat`).  `new Date(ms)` clips a
  fractional millisecond count by truncation toward zero (ECMAScript
  `TimeClip` / `ToIntegerOrInfinity`), modelled by `jsTimeClip`.
* Fallible code paths (dereferencing `undefined`, e.g. `Map.get(k).delete(x)`
  when `k` is absent) are modelled with `Option`, `none` meaning a thrown
  `TypeError`.
-/

/-- JS `Set` of strings: insertion-ordered list; the operations below keep it
duplicate-free. -/
abbrev JsSet := List String

/-- Models `Set.prototype.add`: appends the element if it is not already present. -/
def jsSetAdd (s : JsSet) (x : String) : JsSet :=
  if x ∈ s then s else s ++ [x]

/-- Models `Set.prototype.delete`: removes the element, keeping the order of the rest. -/
def jsSetDelete (s : JsSet) (x : String) : JsSet :=
  s.filter (fun y => y != x)

/-- Models `Map.prototype.get`: first entry with the given key (keys are unique in a
real JS map, so "first" is exact). -/
def jsMapGet {α : Type} (m : List (String × α)) (k : String) : Option α :=
  (m.find? (fun e => e.1 == k)).map Prod.snd

/-- Models `Map.prototype.set`: updates the entry in place when the key exists,
otherwise appends a new entry (JS maps preserve insertion order). -/
def jsMapSet {α : Type} (m : List (String × α)) (k : String) (v : α) :
    List (String × α) :=
  if m.any (fun e => e.1 == k) then
    m.map (fun e => if e.1 == k then (k, v) else e)
  else
    m ++ [(k, v)]

/-- Models `Map.prototype.delete`: removes the entry with the given key. -/
def jsMapDelete {α : Type} (m : List (String × α)) (k : String) :
    List (String × α) :=
  m.filter (fun e => e.1 != k)

theorem jsSetAdd_mem (s : JsSet) (x y : String) :
    y ∈ jsSetAdd s x ↔ y ∈ s ∨ y = x := by
  unfold jsSetAdd
  by_cases h : x ∈ s
  · simp only [if_pos h]
    constructor
    · intro hy; exact Or.inl hy
    · rintro (hy | rfl) <;> [exact hy; exact h]
  · simp [if_neg h]

theorem jsSetDelete_mem (s : JsSet) (x y : String) :
    y ∈ jsSetDelete s x ↔ y ∈ s ∧ y ≠ x := by
  simp [jsSetDelete, List.mem_filter]

theorem findEntry_cons {α : Type} (k : String) (e : String × α) (m : List (String × α)) :
    List.find? (fun x => x.1 == k) (e :: m) =
      if e.1 == k then some e else List.find? (fun x => x.1 == k) m := by
  by_cases h : (e.1 == k) = true
  · rw [if_pos h]
    exact List.find?_cons_of_pos _ h
  · rw [if_neg h]
    exact List.find?_cons_of_neg _ h

theorem jsMapGet_cons {α : Type} (k : String) (e : String × α) (m : List (String × α)) :
    jsMapGet (e :: m) k = if e.1 == k then some e.2 else jsMapGet m k := by
  unfold jsMapGet
  rw [findEntry_cons]
  by_cases h : (e.1 == k) = true
  · rw [if_pos h, if_pos h]
    rfl
  · rw [if_neg h, if_neg h]

theorem jsMapGet_set_self {α : Type} (m : List (String × α)) (k : String) (v : α) :
    jsMapGet (jsMapSet m k v) k = some v := by
  unfold jsMapSet
  by_cases h : (m.any (fun e => e.1 == k)) = true
  · rw [if_pos h]
    induction m with
    | nil => simp at h
    | cons e es ih =>
      rw [List.map_cons, jsMapGet_cons]
      by_cases he : (e.1 == k) = true
      · rw [if_pos he]
        simp
      · rw [if_neg he]
        have hes : (es.any (fun e => e.1 == k)) = true := by
          rw [List.any_cons] at h
          rcases Bool.or_eq_true_iff.mp h with h1 | h1
          · exact absurd h1 he
          · exact h1
        rw [if_neg (by simpa using he)]
        exact ih hes
  · rw [if_neg h]
    induction m with
    | nil => simp [jsMapGet_cons]
    | cons e es ih =>
      have he : (e.1 == k) = false := by
        cases hek : e.1 == k
        · rfl
        · exact absurd (by rw [List.any_cons, hek, Bool.true_or]) h
      rw [List.cons_append, jsMapGet_cons, if_neg (by simp [he])]
      exact ih (fun hc => h (by rw [List.any_cons, hc, Bool.or_true]))

theorem jsMapGet_set_other {α : Type} (m : List (String × α)) (k k2 : String) (v : α)
    (hne : k2 ≠ k) : jsMapGet (jsMapSet m k v) k2 = jsMapGet m k2 := by
  unfold jsMapSet
  by_cases h : (m.any (fun e => e.1 == k)) = true
  · rw [if_pos h]
    clear h
    induction m with
    | nil => rfl
    | cons e es ih =>
      rw [List.map_cons, jsMapGet_cons, jsMapGet_cons]
      by_cases he : (e.1 == k) = true
      · have hek : e.1 = k := by simpa using he
        rw [if_pos he]
        have h1 : ((k, v).1 == k2) = false := by simp [Ne.symm hne]
        have h2 : (e.1 == k2) = false := by simp [hek, Ne.symm hne]
        rw [if_neg (by simp [h1]), if_neg (by simp [h2])]
        exact ih
      · rw [if_neg he]
        by_cases he2 : (e.1 == k2) = true
        · rw [if_pos he2, if_pos he2]
        · rw [if_neg he2, if_neg he2]
          exact ih
  · rw [if_neg h]
    induction m with
    | nil =>
      rw [List.nil_append, jsMapGet_cons, if_neg (by simp [Ne.symm hne])]
    | cons e es ih =>
      rw [List.cons_append, jsMapGet_cons, jsMapGet_cons]
      by_cases he2 : (e.1 == k2) = true
      · rw [if_pos he2, if_pos he2]
      · rw [if_neg he2, if_neg he2]
        exact ih (fun hc => h (by rw [List.any_cons, hc, Bool.or_true]))

theorem jsMapDelete_get_self {α : Type} (m : List (String × α)) (k : String) :
    jsMapGet (jsMapDelete m k) k = none := by
  unfold jsMapDelete
  induction m with
  | nil => rfl
  | cons e es ih =>
    rw [List.filter_cons]
    by_cases he : (e.1 == k) = true
    · have : (e.1 != k) = false := by simp [bne, he]
      rw [if_neg (by simp [this])]
      exact ih
    · have hbne : (e.1 != k) = true := by
        simp only [bne]
        revert he; cases e.1 == k <;> simp
      rw [if_pos hbne, jsMapGet_cons, if_neg he]
      exact ih

theorem jsMapDelete_get_other {α : Type} (m : List (String × α)) (k k2 : String)
    (hne : k2 ≠ k) : jsMapGet (jsMapDelete m k) k2 = jsMapGet m k2 := by
  unfold jsMapDelete
  induction m with
  | nil => rfl
  | cons e es ih =>
    rw [List.filter_cons]
    by_cases he : (e.1 == k) = true
    · have hek : e.1 = k := by simpa using he
      have hbne : (e.1 != k) = false := by simp [bne, he]
      rw [if_neg (by simp [hbne]), jsMapGet_cons,
        if_neg (by simp [hek, Ne.symm hne])]
      exact ih
    · have hbne : (e.1 != k) = true := by
        simp only [bne]
        revert he; cases e.1 == k <;> simp
      rw [if_pos hbne, jsMapGet_cons, jsMapGet_cons]
      by_cases he2 : (e.1 == k2) = true
      · rw [if_pos he2, if_pos he2]
      · rw [if_neg he2, if_neg he2]
        exact ih

/-! ### Selection engine

Embeds `UIforSelector.commitSelections` / `cleanPlot` and
`PlotForDataSelector.updateClicked` from the fixed-axis variant; the
`DataSelector` variant's methods of the same names are textually identical, so
the same definitions cover both.  `selectedDates` is the in-progress
selection set; after `render(c)` it is the very `Set` object stored in
`selectionsByCompound` under `c` (source line 311:
`this.selectedDates = this.selectionsByCompound.get(compound)`), so mutations
of one are mutations of the other; `updateClicked` below makes that aliasing
explicit by writing the updated set back into the map. -/

/-- One iteration of the loop in `UIforSelector.commitSelections` (source lines
700-710): ensure a `selectionsByDate` entry for `d` exists, add `compound` to
it, and add `d` to the compound's persisted set. -/
def commitStep (compound : String) (st : List (String × JsSet) × JsSet) (d : String) :
    List (String × JsSet) × JsSet :=
  let byDate := match jsMapGet st.1 d with
    | none => jsMapSet st.1 d []
    | some _ => st.1
  let byDate2 := jsMapSet byDate d (jsSetAdd ((jsMapGet byDate d).getD []) compound)
  (byDate2, jsSetAdd st.2 d)

/-- Models `UIforSelector.commitSelections(compound)` (source lines 697-713): for every
date-key in `selectedDates`, ensure a `selectionsByDate` entry exists, add
`compound` to it, and add the key to the compound's set in
`selectionsByCompound`.  `none` models the `TypeError` thrown when
`selectionsByCompound.get(compound)` is `undefined` and the loop body runs
(`compoundSet.add(d)` on `undefined`). -/
def commitSelections (byDate byCompound : List (String × JsSet)) (selectedDates : JsSet)
    (compound : String) : Option (List (String × JsSet) × List (String × JsSet)) :=
  match jsMapGet byCompound compound with
  | none =>
    match selectedDates with
    | [] => some (byDate, byCompound)
    | _ :: _ => none
  | some compoundSet =>
    let r := selectedDates.foldl (commitStep compound) (byDate, compoundSet)
    some (r.1, jsMapSet byCompound compound r.2)

/-- One iteration of the loop in `UIforSelector.cleanPlot` (source lines
746-756): remove `compound` from the `selectionsByDate` entry for `d` (if any),
deleting the entry when it becomes empty. -/
def cleanStep (compound : String) (byDate : List (String × JsSet)) (d : String) :
    List (String × JsSet) :=
  match jsMapGet byDate d with
  | none => byDate
  | some s =>
    let s2 := jsSetDelete s compound
    if s2.length = 0 then jsMapDelete byDate d else jsMapSet byDate d s2

/-- Models `UIforSelector.cleanPlot(compound)` (source lines 743-760): for every date
in the compound's persisted set, prune the compound from the cross-compound
ledger, then clear the compound's set.  `none` models the `TypeError` of
iterating `undefined` when the compound is not in `selectionsByCompound`. -/
def cleanPlot (byDate byCompound : List (String × JsSet)) (compound : String) :
    Option (List (String × JsSet) × List (String × JsSet)) :=
  match jsMapGet byCompound compound with
  | none => none
  | some compoundSet =>
    let bd := compoundSet.foldl (cleanStep compound) byDate
    some (bd, jsMapSet byCompound compound [])

/-- Models `PlotForDataSelector.updateClicked(item, removeOnDupe)` (source lines
426-450), for the steady state in which `previousCompound = compound` and
`selectedDates` aliases `selectionsByCompound.get(compound)`.  `dateKey` is the
formatted date of the clicked point.  The remove branch deletes the key from
the in-progress set, prunes `compound` from the ledger entry (an unguarded
`selectionsByDate.get(dateKey).delete(...)`, hence `none` when the entry is
absent), and the add branch inserts the key; both end by calling
`commitSelections(previousCompound)`. -/
def updateClicked (byDate byCompound : List (String × JsSet)) (compound dateKey : String)
    (removeOnDupe : Bool) : Option (List (String × JsSet) × List (String × JsSet)) :=
  match jsMapGet byCompound compound with
  | none => none
  | some sel =>
    if dateKey ∈ sel ∧ removeOnDupe then
      let sel2 := jsSetDelete sel dateKey
      let byCompound2 := jsMapSet byCompound compound sel2
      match jsMapGet byDate dateKey with
      | none => none
      | some ds =>
        let ds2 := jsSetDelete ds compound
        let byDate2 := if ds2.length = 0 then jsMapDelete byDate dateKey
                       else jsMapSet byDate dateKey ds2
        commitSelections byDate2 byCompound2 sel2 compound
    else
      let sel2 := jsSetAdd sel dateKey
      let byCompound2 := jsMapSet byCompound compound sel2
      commitSelections byDate byCompound2 sel2 compound

/-! ### Dates and `formatISODate`

The data loader converts epoch seconds with
`d.date = new Date((d.date + (60 * 60 * this.UTCoffset)) * 1000)` (source line
316), and `UIforSelector.formatISODate` (source lines 626-635) renders
`date.toISOString()`, replaces the `T` with a space and drops the last 8
characters (`:SS.mmmZ`), optionally appending a salt.  `Date.toISOString` is a
platform primitive: it is modelled here for nonnegative timestamps by the
standard proleptic-Gregorian civil-from-days conversion. -/

/-- UTC-offset correction of an epoch-seconds value into milliseconds, from
source line 316: `(d.date + (60 * 60 * this.UTCoffset)) * 1000`. -/
def renderDateMs (epoch utcOffset : Int) : Int :=
  (epoch + 60 * 60 * utcOffset) * 1000

/-- Civil date (year, month, day) from days since 1970-01-01, valid for
nonnegative day counts (dates from 1970 on). -/
def daysToCivil (z : Nat) : Nat × Nat × Nat :=
  let zz := z + 719468
  let era := zz / 146097
  let doe := zz % 146097
  let yoe := (doe - doe / 1460 + doe / 36524 - doe / 146096) / 365
  let y := yoe + era * 400
  let doy := doe - (365 * yoe + yoe / 4 - yoe / 100)
  let mp := (5 * doy + 2) / 153
  let d := doy - (153 * mp + 2) / 5 + 1
  let m := if mp < 10 then mp + 3 else mp - 9
  (if m ≤ 2 then y + 1 else y, m, d)

/-- Zero-pad a natural to two digits. -/
def pad2 (n : Nat) : String :=
  if n < 10 then "0" ++ toString n else toString n

/-- Zero-pad a natural to three digits. -/
def pad3 (n : Nat) : String :=
  if n < 10 then "00" ++ toString n
  else if n < 100 then "0" ++ toString n
  else toString n

/-- Zero-pad a natural to four digits. -/
def pad4 (n : Nat) : String :=
  if n < 1000 then "0" ++ pad3 n else toString n

/-- Models `Date.prototype.toISOString` for a nonnegative timestamp in milliseconds:
`YYYY-MM-DDTHH:MM:SS.mmmZ`. -/
def msToISOString (ms : Nat) : String :=
  let secs := ms / 1000
  let days := secs / 86400
  let rem := secs % 86400
  let c := daysToCivil days
  pad4 c.1 ++ "-" ++ pad2 c.2.1 ++ "-" ++ pad2 c.2.2 ++ "T" ++
    pad2 (rem / 3600) ++ ":" ++ pad2 (rem % 3600 / 60) ++ ":" ++ pad2 (rem % 60) ++
    "." ++ pad3 (ms % 1000) ++ "Z"

/-- JS `String.prototype.replace` with a plain-string pattern replaces only
the first occurrence; this is that operation for the pattern `"T"` and
replacement `" "`. -/
def replaceFirstT : List Char → List Char
  | [] => []
  | c :: cs => if c = 'T' then ' ' :: cs else c :: replaceFirstT cs

/-- JS `String.prototype.slice(0, -8)`: all but the last 8 characters. -/
def jsSliceDropRight8 (cs : List Char) : List Char :=
  cs.take (cs.length - 8)

/-- Models `UIforSelector.formatISODate(date, salt)` (source lines 626-635): ISO
string with the `T` replaced by a space and the trailing `:SS.mmmZ` (8
characters) removed; a truthy salt is appended after a space.  (`none` covers
the JS falsy salt values `null` / `undefined` / `""`.) -/
def formatISODate (ms : Nat) (salt : Option String) : String :=
  let date := String.mk (jsSliceDropRight8 (replaceFirstT (msToISOString ms).data))
  match salt with
  | some s => date ++ " " ++ s
  | none => date

/-! ### Axis limits and scale computation

`AxisLimits` as used by both variants: `xMin`/`xMax` are dates (epoch
milliseconds, compared by `valueOf`), `yMin`/`yMax` numbers.  A data point has
a (UTC-corrected) date and a primary numeric value. -/

/-- A loaded data point after the UTC correction: `date` in epoch milliseconds,
`value` the primary numeric attribute. -/
structure DataPoint where
  date : Int
  value : Rat
deriving Repr, DecidableEq

/-- The active visible window `{xMin, xMax, yMin, yMax}`. -/
structure Limits where
  xMin : Int
  xMax : Int
  yMin : Rat
  yMax : Rat
deriving Repr, DecidableEq

/-- Models `d3.min(data, d => Math.min(d.date))` for nonempty data (for empty data d3
returns `undefined`; the 0 returned here is junk guarded by nonemptiness
hypotheses in the theorems below). -/
def d3minDate : List DataPoint → Int
  | [] => 0
  | d :: ds => ds.foldl (fun a e => min a e.date) d.date

/-- Models `d3.max(data, d => Math.max(d.date))`, same conventions as `d3minDate`. -/
def d3maxDate : List DataPoint → Int
  | [] => 0
  | d :: ds => ds.foldl (fun a e => max a e.date) d.date

/-- Models `d3.min(data, d => Math.min(d.value))`, same conventions as `d3minDate`. -/
def d3minVal : List DataPoint → Rat
  | [] => 0
  | d :: ds => ds.foldl (fun a e => min a e.value) d.value

/-- Models `d3.max(data, d => Math.max(d.value))`, same conventions as `d3minDate`. -/
def d3maxVal : List DataPoint → Rat
  | [] => 0
  | d :: ds => ds.foldl (fun a e => max a e.value) d.value

/-- Models `Math.ceil` on an exact rational. -/
def jsCeilQ (q : Rat) : Rat := ((⌈q⌉ : Int) : Rat)

/-- Models `Math.floor` on an exact rational. -/
def jsFloorQ (q : Rat) : Rat := ((⌊q⌋ : Int) : Rat)

/-- ECMAScript `TimeClip` as applied by `new Date(ms)`: truncation of the
millisecond count toward zero (`ToIntegerOrInfinity`). -/
def jsTimeClip (q : Rat) : Int :=
  if 0 ≤ q then ⌊q⌋ else ⌈q⌉

/-- Models `PlotForDataSelector.createScales(data, xMin, xMax, yMin, yMax, yRound)`
(source lines 259-296), restricted to the limits it computes (the D3 scale
objects are presentation glue).  `none` models a `null` argument.  The
original guards are JS truthiness tests: the `x` bounds are `Date` objects
(always truthy) or `null`, so `Option.getD` is exact for them; the `y` bounds
are numbers, for which `0` is also falsy, hence the extra `v = 0` branches:
`yMax = 0` triggers recomputation `Math.ceil(max(value)/yRound) * yRound`, and
`yMin = 0` is re-assigned `0` (a no-op). -/
def createScalesF (data : List DataPoint) (yRound : Rat)
    (xMin xMax : Option Int) (yMin yMax : Option Rat) : Limits :=
  let xMinV := xMin.getD (d3minDate data)
  let xMaxV := xMax.getD (d3maxDate data)
  let yMaxV := match yMax with
    | none => jsCeilQ (d3maxVal data / yRound) * yRound
    | some v => if v = 0 then jsCeilQ (d3maxVal data / yRound) * yRound else v
  let yMinV := match yMin with
    | none => 0
    | some v => if v = 0 then (0 : Rat) else v
  { xMin := xMinV, xMax := xMaxV, yMin := yMinV, yMax := yMaxV }

/-- The X-range correction in `PlotForDataSelector.dragEnd` (source lines
211-221; `DataSelector.dragEnd` lines 1030-1040 are identical): an
out-of-bounds converted range falls back to the full current bounds, and a
range narrower than `xZoomLimit` is re-centered on
`xAvg = (xEnd + xStart) / 2` and widened to `xAvg ± xZoomLimit / 2`; the two
`new Date(...)` constructions clip fractional milliseconds by truncation. -/
def dragEndAdjustX (lims : Limits) (xZoomLimit : Int) (xS xE : Int) : Int × Int :=
  if xS < lims.xMin ∨ lims.xMax < xE then
    (lims.xMin, lims.xMax)
  else if xE - xS < xZoomLimit then
    let xAvg : Rat := ((xE : Rat) + (xS : Rat)) / 2
    (jsTimeClip (xAvg - (xZoomLimit : Rat) / 2), jsTimeClip (xAvg + (xZoomLimit : Rat) / 2))
  else
    (xS, xE)

/-! ### Fixed-axis variant zoom state

`PlotForDataSelector` holds one `limits` object (last rendered view) and one
plain array `zoomHistory` shared across compounds.  A shift-drag zoom
(`dragEnd`, source lines 201-226) adjusts the converted X range, pushes the
*current* `limits` unconditionally, and re-renders with the new bounds; the
undo button (`UIforSelector.initListeners`, source lines 586-591) pops the
array and, when the pop yielded an entry, re-renders with exactly its four
bounds. -/

/-- The selection rectangle converted to data space: `xStart`/`xEnd` in epoch
milliseconds, `yStart`/`yEnd` numeric (already swapped for SVG orientation). -/
structure ZoomSel where
  xStart : Int
  xEnd : Int
  yStart : Rat
  yEnd : Rat
deriving Repr, DecidableEq

/-- Fixed-axis plot state: current limits plus the shared zoom-history array
(JS array order: most recent last). -/
structure FixedPlot where
  limits : Limits
  zoomHistory : List Limits
deriving Repr, DecidableEq

/-- Initial render of the fixed-axis variant with no explicit bounds: limits
derived from the data, empty history untouched (`render` never pushes in this
variant). -/
def renderFixedInit (data : List DataPoint) (yRound : Rat) : FixedPlot :=
  { limits := createScalesF data yRound none none none none, zoomHistory := [] }

/-- A shift-drag zoom in the fixed-axis variant (source lines 201-226): adjust
the X range against the current limits, push the current limits onto
`zoomHistory` (unconditionally), and recompute `limits` through
`updateAxes` / `render` / `createScales` with the four explicit bounds. -/
def zoomFixed (data : List DataPoint) (yRound : Rat) (xZoomLimit : Int)
    (st : FixedPlot) (sel : ZoomSel) : FixedPlot :=
  let xr := dragEndAdjustX st.limits xZoomLimit sel.xStart sel.xEnd
  { zoomHistory := st.zoomHistory ++ [st.limits],
    limits := createScalesF data yRound (some xr.1) (some xr.2)
      (some sel.yStart) (some sel.yEnd) }

/-- The undo-zoom handler of the fixed-axis variant (source lines 586-591):
`zoomHistory.pop()`; when it yielded limits, re-render with exactly those four
bounds (`updateAxes(...Object.values(oldLimits))`); otherwise do nothing. -/
def undoFixed (data : List DataPoint) (yRound : Rat) (st : FixedPlot) : FixedPlot :=
  match st.zoomHistory.getLast? with
  | none => st
  | some l =>
    { limits := createScalesF data yRound (some l.xMin) (some l.xMax)
        (some l.yMin) (some l.yMax),
      zoomHistory := st.zoomHistory.dropLast }

/-- Applies `n` successive presses of the undo-zoom button. -/
def undoFixedN (data : List DataPoint) (yRound : Rat) : Nat → FixedPlot → FixedPlot
  | 0, st => st
  | n + 1, st => undoFixed data yRound (undoFixedN data yRound n st)

/-! ### Variable-axis variant zoom state

`DataSelector.createScales` (source lines 1117-1156) keeps one limit stack per
(compound, X/Y attribute pair); with no explicit bounds it peeks at the top of
the stack (falling back to the data extent), and it pushes the computed limits
only when the stack is empty or its top differs (`areLimitsEqual`, lines
1158-1165).  The undo handler (lines 1411-1419) pops the stack and re-renders
with no explicit bounds.  Stacks are represented here with the JS array's end
(the top) as the list head, so `push` is `cons` and `pop` is `tail`. -/

/-- Models `DataSelector.areLimitsEqual(lim1, lim2)` (source lines 1158-1165): exact
equality on all four bounds, dates compared by `valueOf`. -/
def areLimitsEqual (a b : Limits) : Bool :=
  a.xMin == b.xMin && a.xMax == b.xMax && a.yMin == b.yMin && a.yMax == b.yMax

/-- The guarded push at the end of `DataSelector.createScales` (source lines
1144-1153): push only if the stack is empty or the top differs from `limits`. -/
def pushIfChanged (stack : List Limits) (l : Limits) : List Limits :=
  match stack with
  | [] => [l]
  | top :: _ => if areLimitsEqual l top then stack else l :: stack

/-- The non-date branch of `DataSelector.processAxis` (source lines 1083-1099):
JS-falsy (`null` or `0`) max and min are recomputed from the data, rounded
outward by `round` (ceil for max, floor for min).  `createScales` calls it
without a `round` argument, so the default `round = 1` applies there. -/
def processAxisNum (data : List DataPoint) (round : Rat) (minVal maxVal : Option Rat) :
    Rat × Rat :=
  let maxV := match maxVal with
    | none => jsCeilQ (d3maxVal data / round) * round
    | some v => if v = 0 then jsCeilQ (d3maxVal data / round) * round else v
  let minV := match minVal with
    | none => jsFloorQ (d3minVal data / round) * round
    | some v => if v = 0 then jsFloorQ (d3minVal data / round) * round else v
  (minV, maxV)

/-- The date branch of `DataSelector.processAxis` (source lines 1064-1082):
absent (`null`) bounds come from the data extent; explicit bounds are `Date`
objects, which are always truthy, so they pass through unchanged. -/
def processAxisDate (data : List DataPoint) (minVal maxVal : Option Int) : Int × Int :=
  (minVal.getD (d3minDate data), maxVal.getD (d3maxDate data))

/-- Models `DataSelector.createScales` (source lines 1117-1156) for one
(compound, attribute-pair) context, restricted to the limits and the stack it
maintains: when any bound is `null` and the stack is nonempty, all four bounds
are taken from the stack top; both axes then go through `processAxis`; finally
the computed limits are pushed if the stack is empty or its top differs. -/
def createScalesV (data : List DataPoint) (stack : List Limits)
    (xMin xMax : Option Int) (yMin yMax : Option Rat) : Limits × List Limits :=
  let args :=
    if xMin = none ∨ xMax = none ∨ yMin = none ∨ yMax = none then
      match stack with
      | top :: _ => (some top.xMin, some top.xMax, some top.yMin, some top.yMax)
      | [] => (xMin, xMax, yMin, yMax)
    else (xMin, xMax, yMin, yMax)
  let xr := processAxisDate data args.1 args.2.1
  let yr := processAxisNum data 1 args.2.2.1 args.2.2.2
  let lims : Limits := { xMin := xr.1, xMax := xr.2, yMin := yr.1, yMax := yr.2 }
  (lims, pushIfChanged stack lims)

/-- Variable-axis view state for one (compound, attribute-pair) context: the
current limits and that context's stack. -/
structure VarSt where
  view : Limits
  stack : List Limits
deriving Repr, DecidableEq

/-- A render of the variable-axis variant with the given (possibly `null`)
bounds. -/
def renderVar (data : List DataPoint) (st : VarSt)
    (xMin xMax : Option Int) (yMin yMax : Option Rat) : VarSt :=
  let r := createScalesV data st.stack xMin xMax yMin yMax
  { view := r.1, stack := r.2 }

/-- A shift-drag zoom in the variable-axis variant (`DataSelector.dragEnd`,
source lines 1021-1042): adjust the converted X range against the current
limits, then `updateAxes`/`render` with the four explicit bounds. -/
def zoomVar (data : List DataPoint) (xZoomLimit : Int) (st : VarSt) (sel : ZoomSel) :
    VarSt :=
  let xr := dragEndAdjustX st.view xZoomLimit sel.xStart sel.xEnd
  renderVar data st (some xr.1) (some xr.2) (some sel.yStart) (some sel.yEnd)

/-- The undo-zoom handler of the variable-axis variant (source lines
1411-1419): pop the context's stack, then `updateAxes()` with no bounds, which
re-renders from the new stack top (or the data extent if the stack emptied). -/
def undoVar (data : List DataPoint) (st : VarSt) : VarSt :=
  renderVar data { view := st.view, stack := st.stack.tail } none none none none

/-- Applies `n` successive presses of the undo-zoom button (variable-axis variant). -/
def undoVarN (data : List DataPoint) : Nat → VarSt → VarSt
  | 0, st => st
  | n + 1, st => undoVar data (undoVarN data n st)

/-! ### Reset points (`initVars` / `totalRefresh`)

`UIforSelector.initVars` (source lines 597-617) re-creates an empty selection
set for every compound, replaces `selectionsByDate` and `selectedDates` with
fresh empty containers and resets `previousCompound`; it never mentions
`plot.zoomHistory`.  `DataSelector.initVars` (source lines 1425-1486)
additionally calls `this.zoomHistory.clear()` and re-creates an empty stack
for every compound and every X/Y option combination.  `totalRefresh` (lines
765-771 and 1638-1644) calls `initVars` and re-dispatches a change event (the
re-render itself is async glue and touches no zoom state synchronously in the
fixed variant). -/

/-- Cross-plot state of the fixed-axis variant UI. -/
structure UIStateF where
  byCompound : List (String × JsSet)
  byDate : List (String × JsSet)
  selectedDates : JsSet
  previousCompound : Option String
  zoomHistory : List Limits
deriving Repr, DecidableEq

/-- Models `UIforSelector.initVars` (source lines 597-617): every compound mapped to a
fresh empty set, fresh `selectionsByDate` and `selectedDates`,
`previousCompound` reset to the first compound.  `zoomHistory` is not touched. -/
def initVarsF (compounds : List String) (st : UIStateF) : UIStateF :=
  { byCompound := compounds.foldl (fun m c => jsMapSet m c []) st.byCompound,
    byDate := [],
    selectedDates := [],
    previousCompound := compounds.head?,
    zoomHistory := st.zoomHistory }

/-- Models `UIforSelector.totalRefresh` (source lines 765-771): `initVars()` then a
re-dispatched change event (whose synchronous part commits an empty selection
and starts a render; neither touches `zoomHistory`). -/
def totalRefreshF (compounds : List String) (st : UIStateF) : UIStateF :=
  initVarsF compounds st

/-- Models `DataSelector.joinXYStrings(x, y)` (source lines 1488-1490). -/
def joinXYStrings (x y : String) : String :=
  "x" ++ x ++ "_y" ++ y

/-- Cross-plot state of the variable-axis variant: `zoomHistory` maps each
compound to a map from joined attribute-pair names to limit stacks. -/
structure UIStateV where
  byCompound : List (String × JsSet)
  byDate : List (String × JsSet)
  selectedDates : JsSet
  previousCompound : Option String
  zoomHistory : List (String × List (String × List Limits))
deriving Repr, DecidableEq

/-- Models `DataSelector.initVars` (source lines 1425-1486): selections reset as in
the fixed variant, and `zoomHistory.clear()` followed by a fresh empty stack
for every compound and every X/Y option combination. -/
def initVarsV (compounds xOptions yOptions : List String) (st : UIStateV) : UIStateV :=
  { byCompound := compounds.foldl (fun m c => jsMapSet m c []) st.byCompound,
    byDate := [],
    selectedDates := [],
    previousCompound := compounds.head?,
    zoomHistory := compounds.map (fun c =>
      (c, (xOptions.map (fun xo =>
        yOptions.map (fun yo => (joinXYStrings xo yo, ([] : List Limits))))).flatten)) }

/-- Models `DataSelector.totalRefresh` (source lines 1638-1644). -/
def totalRefreshV (compounds xOptions yOptions : List String) (st : UIStateV) : UIStateV :=
  initVarsV compounds xOptions yOptions st

/-! ### The zoom-history invariant and reachability (variable-axis variant)

Every mutation of a context's stack in the source is either the guarded push
inside `createScales` or the `pop()` of the undo handler; `initVars` creates
stacks empty.  `VarStackReach` enumerates exactly these mutations. -/

/-- Predicate `noConsecDupB s` holds when no two adjacent stack entries are equal in the
sense of `areLimitsEqual`. -/
def noConsecDupB : List Limits → Bool
  | [] => true
  | [_] => true
  | a :: b :: rest => !areLimitsEqual a b && noConsecDupB (b :: rest)

/-- Stacks reachable in the variable-axis variant: created empty by `initVars`,
mutated only by `createScales` (any bounds) and by the undo handler's `pop`. -/
inductive VarStackReach (data : List DataPoint) : List Limits → Prop
  | init : VarStackReach data []
  | render (s : List Limits) (xMin xMax : Option Int) (yMin yMax : Option Rat) :
      VarStackReach data s →
      VarStackReach data (createScalesV data s xMin xMax yMin yMax).2
  | undoPop (s : List Limits) : VarStackReach data s → VarStackReach data s.tail

/-! ### JSON export (`getJSONfile`)

`UIforSelector.getJSONfile` (source lines 718-736) commits the current
selection, then builds `new Map([...selectionsByDate.entries()].sort())` and
stringifies it with `mapReplacer` (Sets become arrays).  The default
`Array.prototype.sort` comparator stringifies each element; an entry
`[key, set]` stringifies as `key + "," + "[object Set]"`, and the comparison
is lexicographic by UTF-16 code unit.  `JSON.stringify(Object.fromEntries(c))`
then emits the entries in that sorted order (date keys are not integer-like,
so object property order is insertion order).  The model below captures the
entry order of the export; values ride along unchanged (each serialized as the
array of its compounds, in set insertion order, by `mapReplacer`). -/

/-- Lexicographic comparison of char lists by code point, as
`Array.prototype.sort`'s default comparator compares strings. -/
def lexLe : List Char → List Char → Bool
  | [], _ => true
  | _ :: _, [] => false
  | a :: as, b :: bs => if a = b then lexLe as bs else decide (a < b)

/-- The string the JS default sort comparator derives from a ledger entry
`[key, set]`: `String([k, s]) = k + "," + String(s)` and
`String(aSet) = "[object Set]"`. -/
def entryChars (e : String × List String) : List Char :=
  e.1.data ++ ",[object Set]".data

/-- Comparator under which `getJSONfile`'s `.sort()` orders the ledger
entries. -/
def jsEntryLe (a b : String × List String) : Prop :=
  lexLe (entryChars a) (entryChars b) = true

instance : DecidableRel jsEntryLe := fun a b => by
  unfold jsEntryLe
  infer_instance

/-- Entry order of the exported `output.json`:
`new Map([...selectionsByDate.entries()].sort())` (source line 730), i.e. a
stable sort of the ledger entries under the JS default comparator
(`List.insertionSort` is stable, inserting each element before later equal
ones, like the required stable JS sort). -/
def getJSONfileEntries (ledger : List (String × List String)) :
    List (String × List String) :=
  List.insertionSort jsEntryLe ledger

/-- Ascending-by-date-key order of an entry list (the order the spec claims
for the export). -/
def keyLe (a b : String × List String) : Prop :=
  lexLe a.1.data b.1.data = true

instance : DecidableRel keyLe := fun a b => by
  unfold keyLe
  infer_instance

/-! ### Properties of the export comparator -/

theorem lexLe_total : ∀ a b : List Char, lexLe a b = true ∨ lexLe b a = true
  | [], _ => Or.inl rfl
  | _ :: _, [] => Or.inr rfl
  | a :: as, b :: bs => by
    by_cases hab : a = b
    · subst hab
      rcases lexLe_total as bs with h | h
      · exact Or.inl (by simpa [lexLe] using h)
      · exact Or.inr (by simpa [lexLe] using h)
    · rcases lt_or_gt_of_ne hab with h | h
      · exact Or.inl (by simp [lexLe, hab, h])
      · exact Or.inr (by simp [lexLe, Ne.symm hab, h])

theorem lexLe_trans :
    ∀ a b c : List Char, lexLe a b = true → lexLe b c = true → lexLe a c = true
  | [], _, _ => fun _ _ => rfl
  | _ :: _, [], _ => fun h _ => by simp [lexLe] at h
  | _ :: _, _ :: _, [] => fun _ h => by simp [lexLe] at h
  | a :: as, b :: bs, c :: cs => fun h1 h2 => by
    by_cases hab : a = b <;> by_cases hbc : b = c
    · subst hab; subst hbc
      simp only [lexLe, if_pos rfl] at h1 h2 ⊢
      exact lexLe_trans as bs cs h1 h2
    · subst hab
      simp only [lexLe, if_neg hbc] at h2 ⊢
      exact h2
    · subst hbc
      simp only [lexLe, if_neg hab] at h1 ⊢
      exact h1
    · have h1l : a < b := by simpa [lexLe, hab] using h1
      have h2l : b < c := by simpa [lexLe, hbc] using h2
      have hac : a < c := lt_trans h1l h2l
      simp [lexLe, ne_of_lt hac, hac]

instance : IsTotal (String × List String) jsEntryLe :=
  ⟨fun a b => lexLe_total (entryChars a) (entryChars b)⟩

instance : IsTrans (String × List String) jsEntryLe :=
  ⟨fun a b c => lexLe_trans (entryChars a) (entryChars b) (entryChars c)⟩

theorem lexLe_append_of_eq_length :
    ∀ (a b s : List Char), a.length = b.length →
      lexLe (a ++ s) (b ++ s) = true → lexLe a b = true
  | [], [], _ => fun _ _ => rfl
  | [], _ :: _, _ => fun h => by simp at h
  | _ :: _, [], _ => fun h => by simp at h
  | a :: as, b :: bs, s => fun h hl => by
    by_cases hab : a = b
    · subst hab
      simp only [List.cons_append, lexLe, if_pos rfl] at hl ⊢
      exact lexLe_append_of_eq_length as bs s (by simpa using h) hl
    · simp only [List.cons_append, lexLe, if_neg hab] at hl ⊢
      exact hl

/-- Decidable check that an entry list is ascending by date-key. -/
def ascendingByKeyB : List (String × List String) → Bool
  | [] => true
  | [_] => true
  | a :: b :: rest => lexLe a.1.data b.1.data && ascendingByKeyB (b :: rest)

/-- C4: the claim's conversion formula matches the code, but its worked example
does not: epoch `1500000000` shifted by UTC offset `-2` is
`2017-07-14 02:40:00Z - 2h = 2017-07-14 00:40:00Z`, which `formatISODate`
renders as `"2017-07-14 00:40"`, not `"2017-07-13 23:40"`. -/
theorem C4_format_counterexample :
    formatISODate (Int.toNat (renderDateMs 1500000000 (-2))) none ≠
      "2017-07-13 23:40" := by
  decide

/-- C4 (amended): a point with epoch-seconds `e` and UTC offset `h` hours
renders as `new Date((e + 3600 * h) * 1000)`; epoch `1500000000` with offset
`-2` gives `(1500000000 - 7200) * 1000` milliseconds, which `formatISODate`
(without salt) formats as `"2017-07-14 00:40"`. -/
theorem C4_amended_date_conversion :
    (∀ e h : Int, renderDateMs e h = (e + 3600 * h) * 1000)
    ∧ renderDateMs 1500000000 (-2) = (1500000000 - 7200) * 1000
    ∧ formatISODate (Int.toNat ((1500000000 - 7200) * 1000 : Int)) none =
        "2017-07-14 00:40" := by
  refine ⟨fun e h => by norm_num [renderDateMs], by decide, by decide⟩

/-- C5 counterexample: the export order is the JS default sort of the
stringified `[key, Set]` pairs, not ascending date-key order.  With the
(genuinely producible) mixed keys `"2020-01-01 00:00"` (no salt on that data
row) and `"2020-01-01 00:00 1"` (salt `1`), the appended `",[object Set]"`
makes the salted key sort first (`' ' < ','`), so the export is not ascending
by date-key. -/
theorem C5_sort_counterexample :
    (getJSONfileEntries
        [("2020-01-01 00:00", ["ethane"]), ("2020-01-01 00:00 1", ["ethane"])]).map
        Prod.fst = ["2020-01-01 00:00 1", "2020-01-01 00:00"]
    ∧ ascendingByKeyB
        (getJSONfileEntries
          [("2020-01-01 00:00", ["ethane"]), ("2020-01-01 00:00 1", ["ethane"])]) =
        false := by
  constructor
  · decide
  · decide

/-- C5 (amended): `getJSONfile` orders the exported entries by the JS default
sort comparator (lexicographic on `key + ",[object Set]"`), a stable sort that
permutes the entries and leaves each value list (the compounds of that date)
unchanged; whenever all date-keys have the same length — in particular for
unsalted keys, all of the form `YYYY-MM-DD HH:MM` — this order coincides with
ascending date-key order, and the claim's concrete example holds:
`"2020-01-01 00:00"` precedes `"2020-02-02 00:00"`. -/
theorem C5_amended_export_order :
    (∀ l : List (String × List String), List.Sorted jsEntryLe (getJSONfileEntries l))
    ∧ (∀ l : List (String × List String), (getJSONfileEntries l).Perm l)
    ∧ (∀ (n : Nat) (l : List (String × List String)),
        (∀ e ∈ l, e.1.data.length = n) →
        List.Sorted keyLe (getJSONfileEntries l))
    ∧ getJSONfileEntries
        [("2020-02-02 00:00", ["ethane"]), ("2020-01-01 00:00", ["propane"])] =
        [("2020-01-01 00:00", ["propane"]), ("2020-02-02 00:00", ["ethane"])] := by
  refine ⟨fun l => List.sorted_insertionSort _ l,
    fun l => List.perm_insertionSort _ l, ?_, by decide⟩
  intro n l hlen
  have hs := List.sorted_insertionSort jsEntryLe l
  have hperm := List.perm_insertionSort jsEntryLe l
  refine hs.imp_of_mem ?_
  intro a b ha hb hab
  have hla : a.1.data.length = n := hlen a (hperm.mem_iff.mp ha)
  have hlb : b.1.data.length = n := hlen b (hperm.mem_iff.mp hb)
  unfold jsEntryLe entryChars at hab
  unfold keyLe
  exact lexLe_append_of_eq_length _ _ _ (hla.trans hlb.symm) hab

/-- C5 witness: the equal-length branch of the amended theorem at the claim's
own two 16-character keys. -/
theorem C5_amended_export_order_witness :
    List.Sorted keyLe (getJSONfileEntries
      [("2020-02-02 00:00", ["ethane"]), ("2020-01-01 00:00", ["propane"])]) :=
  C5_amended_export_order.2.2.1 16
    [("2020-02-02 00:00", ["ethane"]), ("2020-01-01 00:00", ["propane"])]
    (by decide)

/-- C6: in `PlotForDataSelector.createScales`, with no `yMax` override the
computed `yMax` is `Math.ceil(m / r) * r` for data maximum `m` and rounding
unit `r`, and with no `yMin` override the computed `yMin` is `0`. -/
theorem C6_yBounds_rounding (data : List DataPoint) (r m : Rat)
    (_hne : data ≠ []) (_hr : 0 < r) (hm : d3maxVal data = m) :
    (createScalesF data r none none none none).yMax = ((⌈m / r⌉ : Int) : Rat) * r
    ∧ (createScalesF data r none none none none).yMin = 0 := by
  subst hm
  exact ⟨rfl, rfl⟩

/-- C6 witness: data maximum `120` with rounding unit `50` yields
`yMax = 150` and `yMin = 0`. -/
theorem C6_yBounds_rounding_witness :
    ((createScalesF [⟨0, 120⟩] 50 none none none none).yMax =
        ((⌈(120 : Rat) / 50⌉ : Int) : Rat) * 50
      ∧ (createScalesF [⟨0, 120⟩] 50 none none none none).yMin = 0)
    ∧ (createScalesF [⟨0, 120⟩] 50 none none none none).yMax = 150 :=
  ⟨C6_yBounds_rounding [⟨0, 120⟩] 50 120 (by decide) (by with_unfolding_all decide)
      (by with_unfolding_all decide),
    by with_unfolding_all decide⟩

/-! ### The zoom width floor (C7) -/

theorem jsTimeClip_intCast (t : Int) (ht : 0 ≤ t) : jsTimeClip ((t : Rat)) = t := by
  unfold jsTimeClip
  rw [if_pos (by exact_mod_cast ht), Int.floor_intCast]

theorem jsTimeClip_intCast_add_half (t : Int) (ht : 0 ≤ t) :
    jsTimeClip ((t : Rat) + 1 / 2) = t := by
  unfold jsTimeClip
  have h0 : (0 : Rat) ≤ (t : Rat) + 1 / 2 := by
    have : (0 : Rat) ≤ (t : Rat) := by exact_mod_cast ht
    linarith
  rw [if_pos h0, Int.floor_int_add]
  norm_num

/-- C7 counterexample: a drawn range of 1 ms at an odd coordinate sum, within
limits and narrower than the configured minimum `L = 2678400000` ms, is
re-centered to a window whose endpoint sum is `xStart + xEnd - 1`: the window
is *not* centered on the drawn midpoint `(xStart + xEnd) / 2`, because
`new Date(xAvg ± L/2)` truncates the half-millisecond. -/
theorem C7_center_counterexample :
    (dragEndAdjustX { xMin := 0, xMax := 10000000000000, yMin := 0, yMax := 100 }
          2678400000 1000000000000 1000000000001).1 +
      (dragEndAdjustX { xMin := 0, xMax := 10000000000000, yMin := 0, yMax := 100 }
          2678400000 1000000000000 1000000000001).2 ≠
      1000000000000 + 1000000000001 := by
  with_unfolding_all decide

/-- C7 (amended): for a shift-drag zoom whose converted X range lies within
the current limits, is narrower than the minimum width `L`, and whose
re-centered window stays in nonnegative time (`L ≤ xStart + xEnd`), the
resulting range has width exactly `L`; its endpoint sum equals
`xStart + xEnd` or `xStart + xEnd - 1`, the former exactly when
`xStart + xEnd` and `L` have the same parity — i.e. the range is centered on
the drawn midpoint up to the half-millisecond truncated by `new Date`. -/
theorem C7_amended_zoom_floor (lims : Limits) (xZoomLimit xS xE : Int)
    (hin : ¬(xS < lims.xMin ∨ lims.xMax < xE))
    (hnarrow : xE - xS < xZoomLimit)
    (hpos : 0 < xZoomLimit)
    (hnonneg : xZoomLimit ≤ xS + xE) :
    (dragEndAdjustX lims xZoomLimit xS xE).2 -
        (dragEndAdjustX lims xZoomLimit xS xE).1 = xZoomLimit
    ∧ ((dragEndAdjustX lims xZoomLimit xS xE).1 +
          (dragEndAdjustX lims xZoomLimit xS xE).2 = xS + xE
        ∨ (dragEndAdjustX lims xZoomLimit xS xE).1 +
          (dragEndAdjustX lims xZoomLimit xS xE).2 = xS + xE - 1)
    ∧ ((xS + xE) % 2 = xZoomLimit % 2 →
        (dragEndAdjustX lims xZoomLimit xS xE).1 +
          (dragEndAdjustX lims xZoomLimit xS xE).2 = xS + xE) := by
  unfold dragEndAdjustX
  rw [if_neg hin, if_pos hnarrow]
  rcases Int.even_or_odd (xS + xE - xZoomLimit) with ⟨t, ht⟩ | ⟨t, ht⟩
  · have hq : (xS : Rat) + xE - xZoomLimit = t + t := by
      exact_mod_cast congrArg (fun z : Int => (z : Rat)) ht
    have e1 : ((xE : Rat) + xS) / 2 - (xZoomLimit : Rat) / 2 = ((t : Int) : Rat) := by
      linarith
    have e2 : ((xE : Rat) + xS) / 2 + (xZoomLimit : Rat) / 2 =
        (((t + xZoomLimit) : Int) : Rat) := by
      push_cast
      linarith
    simp only [e1, e2, jsTimeClip_intCast t (by omega),
      jsTimeClip_intCast (t + xZoomLimit) (by omega)]
    exact ⟨by omega, Or.inl (by omega), fun _ => by omega⟩
  · have hq : (xS : Rat) + xE - xZoomLimit = 2 * t + 1 := by
      exact_mod_cast congrArg (fun z : Int => (z : Rat)) ht
    have e1 : ((xE : Rat) + xS) / 2 - (xZoomLimit : Rat) / 2 = ((t : Int) : Rat) + 1 / 2 := by
      linarith
    have e2 : ((xE : Rat) + xS) / 2 + (xZoomLimit : Rat) / 2 =
        (((t + xZoomLimit) : Int) : Rat) + 1 / 2 := by
      push_cast
      linarith
    simp only [e1, e2, jsTimeClip_intCast_add_half t (by omega),
      jsTimeClip_intCast_add_half (t + xZoomLimit) (by omega)]
    refine ⟨by omega, Or.inr (by omega), fun hpar => ?_⟩
    omega

/-- C7 witness: a 2 ms drawn range at an even coordinate sum is widened to
exactly the configured month (`2678400000` ms), centered exactly. -/
theorem C7_amended_zoom_floor_witness :
    (dragEndAdjustX { xMin := 0, xMax := 10000000000000, yMin := 0, yMax := 100 }
          2678400000 2000000000 2000000002).2 -
        (dragEndAdjustX { xMin := 0, xMax := 10000000000000, yMin := 0, yMax := 100 }
          2678400000 2000000000 2000000002).1 = 2678400000
    ∧ ((dragEndAdjustX { xMin := 0, xMax := 10000000000000, yMin := 0, yMax := 100 }
          2678400000 2000000000 2000000002).1 +
        (dragEndAdjustX { xMin := 0, xMax := 10000000000000, yMin := 0, yMax := 100 }
          2678400000 2000000000 2000000002).2 = 2000000000 + 2000000002
        ∨ (dragEndAdjustX { xMin := 0, xMax := 10000000000000, yMin := 0, yMax := 100 }
          2678400000 2000000000 2000000002).1 +
        (dragEndAdjustX { xMin := 0, xMax := 10000000000000, yMin := 0, yMax := 100 }
          2678400000 2000000000 2000000002).2 = 2000000000 + 2000000002 - 1)
    ∧ (((2000000000 : Int) + 2000000002) % 2 = 2678400000 % 2 →
        (dragEndAdjustX { xMin := 0, xMax := 10000000000000, yMin := 0, yMax := 100 }
          2678400000 2000000000 2000000002).1 +
        (dragEndAdjustX { xMin := 0, xMax := 10000000000000, yMin := 0, yMax := 100 }
          2678400000 2000000000 2000000002).2 = 2000000000 + 2000000002) :=
  C7_amended_zoom_floor { xMin := 0, xMax := 10000000000000, yMin := 0, yMax := 100 }
    2678400000 2000000000 2000000002 (by decide) (by decide) (by decide) (by decide)

/-! ### Consecutive duplicates on the zoom stacks (C2) -/

theorem noConsecDupB_tail (s : List Limits) (h : noConsecDupB s = true) :
    noConsecDupB s.tail = true := by
  match s with
  | [] => rfl
  | [_] => rfl
  | a :: b :: rest =>
    simp only [noConsecDupB, Bool.and_eq_true] at h
    exact h.2

theorem noConsecDupB_push (s : List Limits) (l : Limits) (h : noConsecDupB s = true) :
    noConsecDupB (pushIfChanged s l) = true := by
  match s with
  | [] => rfl
  | top :: rest =>
    simp only [pushIfChanged]
    by_cases he : areLimitsEqual l top = true
    · rw [if_pos he]
      exact h
    · rw [if_neg he]
      simp only [noConsecDupB, Bool.and_eq_true]
      exact ⟨by simpa using he, h⟩

/-- C2 counterexample: the fixed-axis variant has no `pushIfChanged` guard —
`dragEnd` (source line 224) pushes the current limits unconditionally.
Starting from the initial render of the data
`[{date 0, value 100}, {date 1000, value 100}]` (limits
`⟨0, 1000, 0, 100⟩`), two successive shift-drag zooms that select the full
current view leave the reachable zoom history `[⟨0,1000,0,100⟩,
⟨0,1000,0,100⟩]` — two consecutive equal entries. -/
theorem C2_fixed_push_counterexample :
    noConsecDupB
      ((zoomFixed [⟨0, 100⟩, ⟨1000, 100⟩] 50 10
        (zoomFixed [⟨0, 100⟩, ⟨1000, 100⟩] 50 10
          (renderFixedInit [⟨0, 100⟩, ⟨1000, 100⟩] 50)
          ⟨0, 1000, 0, 100⟩)
        ⟨0, 1000, 0, 100⟩).zoomHistory) = false := by
  with_unfolding_all decide

/-- C2 (amended): in the variable-axis variant, every zoom-history stack
reachable through `createScales`'s guarded push and the undo handler's pop is
free of consecutive equal entries; in the fixed-axis variant, `dragEnd`
appends the current limits to the (single, shared) history unconditionally,
so a no-op zoom does add a redundant entry. -/
theorem C2_amended_no_consec_dup (data : List DataPoint) :
    (∀ s : List Limits, VarStackReach data s → noConsecDupB s = true)
    ∧ (∀ (yRound : Rat) (xZoomLimit : Int) (st : FixedPlot) (sel : ZoomSel),
        (zoomFixed data yRound xZoomLimit st sel).zoomHistory =
          st.zoomHistory ++ [st.limits]) := by
  constructor
  · intro s hs
    induction hs with
    | init => rfl
    | render s xMin xMax yMin yMax _ ih =>
      exact noConsecDupB_push s _ ih
    | undoPop s _ ih =>
      exact noConsecDupB_tail s ih
  · intro yR xL st sel
    rfl

/-- C2 witness: the stack left by a first render from the empty stack
satisfies the invariant. -/
theorem C2_amended_no_consec_dup_witness :
    noConsecDupB ((createScalesV [⟨0, 100⟩] [] none none none none).2) = true :=
  (C2_amended_no_consec_dup [⟨0, 100⟩]).1 _
    (VarStackReach.render [] none none none none VarStackReach.init)

/-! ### Undo round trips (C3) -/

theorem createScalesF_explicit (data : List DataPoint) (yRound : Rat) (a b : Int)
    (m M : Rat) (hM : M ≠ 0) :
    createScalesF data yRound (some a) (some b) (some m) (some M) =
      { xMin := a, xMax := b, yMin := m, yMax := M } := by
  simp only [createScalesF, Option.getD_some]
  rw [if_neg hM]
  by_cases hm : m = 0
  · subst hm
    rw [if_pos rfl]
  · rw [if_neg hm]

theorem undoFixed_last (data : List DataPoint) (yRound : Rat) (st : FixedPlot)
    (l : Limits) (h : st.zoomHistory.getLast? = some l) :
    undoFixed data yRound st =
      { limits := createScalesF data yRound (some l.xMin) (some l.xMax)
          (some l.yMin) (some l.yMax),
        zoomHistory := st.zoomHistory.dropLast } := by
  unfold undoFixed
  rw [h]

theorem undoFixed_zoomFixed (data : List DataPoint) (yRound : Rat) (xZoomLimit : Int)
    (st : FixedPlot) (sel : ZoomSel) (hy : st.limits.yMax ≠ 0) :
    undoFixed data yRound (zoomFixed data yRound xZoomLimit st sel) = st := by
  have h1 : (zoomFixed data yRound xZoomLimit st sel).zoomHistory =
      st.zoomHistory ++ [st.limits] := rfl
  rw [undoFixed_last data yRound _ st.limits (by rw [h1, List.getLast?_concat])]
  rw [h1, List.dropLast_concat, createScalesF_explicit data yRound _ _ _ _ hy]

theorem zoomFixed_limits (data : List DataPoint) (yRound : Rat) (xZoomLimit : Int)
    (st : FixedPlot) (sel : ZoomSel) (hy : sel.yEnd ≠ 0) :
    (zoomFixed data yRound xZoomLimit st sel).limits.yMax = sel.yEnd := by
  show (createScalesF data yRound _ _ (some sel.yStart) (some sel.yEnd)).yMax = sel.yEnd
  rw [createScalesF_explicit data yRound _ _ _ _ hy]

theorem undoN_zoomN_fixed (data : List DataPoint) (yRound : Rat) (xZoomLimit : Int) :
    ∀ (zs : List ZoomSel) (st : FixedPlot), st.limits.yMax ≠ 0 →
      (∀ z ∈ zs, z.yEnd ≠ 0) →
      undoFixedN data yRound zs.length
        (zs.foldl (zoomFixed data yRound xZoomLimit) st) = st
  | [], st, _, _ => rfl
  | z :: zs, st, hy, hz => by
    rw [List.foldl_cons, List.length_cons]
    show undoFixed data yRound (undoFixedN data yRound zs.length
      (zs.foldl (zoomFixed data yRound xZoomLimit)
        (zoomFixed data yRound xZoomLimit st z))) = st
    rw [undoN_zoomN_fixed data yRound xZoomLimit zs
      (zoomFixed data yRound xZoomLimit st z)
      (by
        rw [zoomFixed_limits data yRound xZoomLimit st z
          (hz z (List.mem_cons_self z zs))]
        exact hz z (List.mem_cons_self z zs))
      (fun w hw => hz w (List.mem_cons_of_mem z hw))]
    exact undoFixed_zoomFixed data yRound xZoomLimit st z hy

theorem areLimitsEqual_iff (a b : Limits) : areLimitsEqual a b = true ↔ a = b := by
  cases a
  cases b
  simp [areLimitsEqual, Limits.mk.injEq, Bool.and_eq_true, beq_iff_eq, and_assoc]

theorem areLimitsEqual_refl (a : Limits) : areLimitsEqual a a = true :=
  (areLimitsEqual_iff a a).mpr rfl

/-- The limits a shift-drag zoom computes, as a function of the current view
only (`createScales` with four explicit bounds ignores the stack for the
limits themselves). -/
def zoomViewF (data : List DataPoint) (xZoomLimit : Int) (v : Limits) (z : ZoomSel) :
    Limits :=
  (createScalesV data []
    (some (dragEndAdjustX v xZoomLimit z.xStart z.xEnd).1)
    (some (dragEndAdjustX v xZoomLimit z.xStart z.xEnd).2)
    (some z.yStart) (some z.yEnd)).1

/-- Zooms `zs` in order are pairwise distinct from the view each is applied
to (the sense in which C3's "N distinct zooms" is used: each zoom changes the
view, so each pushes). -/
def distinctZoomsB (data : List DataPoint) (xZoomLimit : Int) :
    Limits → List ZoomSel → Bool
  | _, [] => true
  | v, z :: zs =>
    !areLimitsEqual (zoomViewF data xZoomLimit v z) v &&
      distinctZoomsB data xZoomLimit (zoomViewF data xZoomLimit v z) zs

/-- A view restores exactly through the stack-peek branch of `createScales`
when `processAxis` hands its `y` bounds back unchanged (its `x` bounds, being
dates, always pass through). -/
def safeRestore (data : List DataPoint) (l : Limits) : Prop :=
  processAxisNum data 1 (some l.yMin) (some l.yMax) = (l.yMin, l.yMax)

theorem safeRestore_of_ne (data : List DataPoint) (l : Limits)
    (h1 : l.yMin ≠ 0) (h2 : l.yMax ≠ 0) : safeRestore data l := by
  unfold safeRestore
  simp only [processAxisNum]
  rw [if_neg h2, if_neg h1]

/-- The data-extent limits of the variable-axis variant's default render
(`round = 1`, see `processAxisNum`). -/
def extentLimits (data : List DataPoint) : Limits :=
  { xMin := d3minDate data, xMax := d3maxDate data,
    yMin := jsFloorQ (d3minVal data / 1) * 1,
    yMax := jsCeilQ (d3maxVal data / 1) * 1 }

theorem safeRestore_extent (data : List DataPoint) :
    safeRestore data (extentLimits data) := by
  unfold safeRestore extentLimits
  simp only [processAxisNum]
  split <;> split <;> rfl

theorem renderVar_initial (data : List DataPoint) (v : Limits) :
    renderVar data { view := v, stack := [] } none none none none =
      { view := extentLimits data, stack := [extentLimits data] } := rfl

theorem renderVar_explicit (data : List DataPoint) (st : VarSt) (a b : Int)
    (m M : Rat) (hm : m ≠ 0) (hM : M ≠ 0) :
    renderVar data st (some a) (some b) (some m) (some M) =
      { view := { xMin := a, xMax := b, yMin := m, yMax := M },
        stack := pushIfChanged st.stack { xMin := a, xMax := b, yMin := m, yMax := M } } := by
  unfold renderVar createScalesV
  rw [if_neg (by simp)]
  simp only [processAxisDate, processAxisNum, Option.getD_some]
  rw [if_neg hM, if_neg hm]

theorem renderVar_peek (data : List DataPoint) (st : VarSt) (top : Limits)
    (rest : List Limits) (hstack : st.stack = top :: rest)
    (hsafe : safeRestore data top) :
    renderVar data st none none none none =
      { view := top, stack := pushIfChanged st.stack top } := by
  unfold renderVar createScalesV
  rw [hstack, if_pos (Or.inl rfl)]
  simp only [processAxisDate, Option.getD_some]
  unfold safeRestore at hsafe
  rw [hsafe]

theorem zoomVar_eq (data : List DataPoint) (xZoomLimit : Int) (st : VarSt) (z : ZoomSel) :
    zoomVar data xZoomLimit st z =
      { view := zoomViewF data xZoomLimit st.view z,
        stack := pushIfChanged st.stack (zoomViewF data xZoomLimit st.view z) } := rfl

theorem zoomViewF_eq (data : List DataPoint) (xZoomLimit : Int) (v : Limits) (z : ZoomSel)
    (hm : z.yStart ≠ 0) (hM : z.yEnd ≠ 0) :
    zoomViewF data xZoomLimit v z =
      { xMin := (dragEndAdjustX v xZoomLimit z.xStart z.xEnd).1,
        xMax := (dragEndAdjustX v xZoomLimit z.xStart z.xEnd).2,
        yMin := z.yStart, yMax := z.yEnd } := by
  unfold zoomViewF createScalesV
  rw [if_neg (by simp)]
  simp only [processAxisDate, processAxisNum, Option.getD_some]
  rw [if_neg hM, if_neg hm]

theorem undoN_zoomN_var (data : List DataPoint) (xZoomLimit : Int) :
    ∀ (zs : List ZoomSel) (st : VarSt) (rest : List Limits),
      st.stack = st.view :: rest →
      safeRestore data st.view →
      (∀ z ∈ zs, z.yStart ≠ 0 ∧ z.yEnd ≠ 0) →
      distinctZoomsB data xZoomLimit st.view zs = true →
      undoVarN data zs.length (zs.foldl (zoomVar data xZoomLimit) st) = st
  | [], _, _, _, _, _, _ => rfl
  | z :: zs, st, rest, hstack, hsafe, hy, hd => by
    have hz := hy z (List.mem_cons_self z zs)
    simp only [distinctZoomsB, Bool.and_eq_true, Bool.not_eq_true'] at hd
    have hpush : pushIfChanged st.stack (zoomViewF data xZoomLimit st.view z) =
        zoomViewF data xZoomLimit st.view z :: st.stack := by
      rw [hstack]
      simp only [pushIfChanged]
      rw [if_neg (by simp [hd.1])]
    have hfold : (z :: zs).foldl (zoomVar data xZoomLimit) st =
        zs.foldl (zoomVar data xZoomLimit)
          { view := zoomViewF data xZoomLimit st.view z,
            stack := zoomViewF data xZoomLimit st.view z :: st.stack } := by
      rw [List.foldl_cons, zoomVar_eq, hpush]
    rw [List.length_cons, hfold]
    show undoVar data (undoVarN data zs.length (zs.foldl (zoomVar data xZoomLimit)
      { view := zoomViewF data xZoomLimit st.view z,
        stack := zoomViewF data xZoomLimit st.view z :: st.stack })) = st
    rw [undoN_zoomN_var data xZoomLimit zs
      { view := zoomViewF data xZoomLimit st.view z,
        stack := zoomViewF data xZoomLimit st.view z :: st.stack }
      st.stack rfl
      (by
        rw [zoomViewF_eq data xZoomLimit st.view z hz.1 hz.2]
        exact safeRestore_of_ne data _ hz.1 hz.2)
      (fun w hw => hy w (List.mem_cons_of_mem z hw))
      hd.2]
    show renderVar data (⟨zoomViewF data xZoomLimit st.view z, st.stack⟩ : VarSt)
      none none none none = st
    rw [renderVar_peek data (⟨zoomViewF data xZoomLimit st.view z, st.stack⟩ : VarSt)
      st.view rest hstack hsafe]
    have hpush2 : pushIfChanged st.stack st.view = st.stack := by
      rw [hstack]
      simp only [pushIfChanged]
      rw [if_pos (areLimitsEqual_refl st.view)]
    rw [hpush2]

/-- C3: the undo-zoom action.  Fixed-axis variant: undo on an empty history is
a no-op, and after `N` zooms (each with a nonzero `yEnd`, so that the JS falsy
check preserves the restored bound) `N` undos restore the starting state
exactly.  Variable-axis variant: starting from the initial default render
(whose view is the full data extent `extentLimits`), `N` distinct zooms
followed by `N` undos return the view and the stack exactly to that
full-extent state. -/
theorem C3_undo_zoom_correct (data : List DataPoint) (yRound : Rat) (xZoomLimit : Int) :
    (∀ st : FixedPlot, st.zoomHistory = [] → undoFixed data yRound st = st)
    ∧ (∀ (zs : List ZoomSel) (st : FixedPlot),
        st.limits.yMax ≠ 0 → (∀ z ∈ zs, z.yEnd ≠ 0) →
        undoFixedN data yRound zs.length
          (zs.foldl (zoomFixed data yRound xZoomLimit) st) = st)
    ∧ (∀ (zs : List ZoomSel) (v : Limits),
        (∀ z ∈ zs, z.yStart ≠ 0 ∧ z.yEnd ≠ 0) →
        distinctZoomsB data xZoomLimit (extentLimits data) zs = true →
        undoVarN data zs.length
          (zs.foldl (zoomVar data xZoomLimit)
            (renderVar data { view := v, stack := [] } none none none none)) =
          { view := extentLimits data, stack := [extentLimits data] }) := by
  refine ⟨?_, undoN_zoomN_fixed data yRound xZoomLimit, ?_⟩
  · intro st h
    unfold undoFixed
    rw [h]
    rfl
  · intro zs v hy hd
    rw [renderVar_initial]
    exact undoN_zoomN_var data xZoomLimit zs
      { view := extentLimits data, stack := [extentLimits data] } [] rfl
      (safeRestore_extent data) hy hd

/-- C3 witness: one zoom and one undo in each variant, on the data
`[{0, 30}, {1000, 80}]` with rounding unit 50 and zoom limit 10 ms. -/
theorem C3_undo_zoom_correct_witness :
    (undoFixedN [⟨0, 30⟩, ⟨1000, 80⟩] 50 [(⟨100, 900, 10, 60⟩ : ZoomSel)].length
        ([(⟨100, 900, 10, 60⟩ : ZoomSel)].foldl
          (zoomFixed [⟨0, 30⟩, ⟨1000, 80⟩] 50 10)
          (renderFixedInit [⟨0, 30⟩, ⟨1000, 80⟩] 50)) =
        renderFixedInit [⟨0, 30⟩, ⟨1000, 80⟩] 50)
    ∧ (undoVarN [⟨0, 30⟩, ⟨1000, 80⟩] [(⟨100, 900, 10, 60⟩ : ZoomSel)].length
        ([(⟨100, 900, 10, 60⟩ : ZoomSel)].foldl
          (zoomVar [⟨0, 30⟩, ⟨1000, 80⟩] 10)
          (renderVar [⟨0, 30⟩, ⟨1000, 80⟩]
            { view := { xMin := 0, xMax := 0, yMin := 0, yMax := 0 }, stack := [] }
            none none none none)) =
        { view := extentLimits [⟨0, 30⟩, ⟨1000, 80⟩],
          stack := [extentLimits [⟨0, 30⟩, ⟨1000, 80⟩]] }) :=
  ⟨(C3_undo_zoom_correct [⟨0, 30⟩, ⟨1000, 80⟩] 50 10).2.1
      [⟨100, 900, 10, 60⟩] (renderFixedInit [⟨0, 30⟩, ⟨1000, 80⟩] 50)
      (by with_unfolding_all decide) (by with_unfolding_all decide),
    (C3_undo_zoom_correct [⟨0, 30⟩, ⟨1000, 80⟩] 50 10).2.2
      [⟨100, 900, 10, 60⟩] { xMin := 0, xMax := 0, yMin := 0, yMax := 0 }
      (by with_unfolding_all decide) (by with_unfolding_all decide)⟩

/-! ### Reset of the zoom history on "clear all" (C8) -/

theorem jsMapGet_map_const {α : Type} (v : α) :
    ∀ (l : List String) (k : String), k ∈ l →
      jsMapGet (l.map (fun c => (c, v))) k = some v
  | [], _, h => absurd h (List.not_mem_nil _)
  | c :: cs, k, h => by
    rw [List.map_cons, jsMapGet_cons]
    by_cases hk : (c == k) = true
    · rw [if_pos hk]
    · rw [if_neg hk]
      rcases List.mem_cons.mp h with h1 | h1
      · exact absurd (by simp [h1]) hk
      · exact jsMapGet_map_const v cs k h1

theorem jsMapGet_const_values {α : Type} (v : α) :
    ∀ (m : List (String × α)) (k : String),
      (∀ e ∈ m, e.2 = v) → (∃ e ∈ m, e.1 = k) →
      jsMapGet m k = some v
  | [], _, _, hk => by
    rcases hk with ⟨e, he, _⟩
    exact absurd he (List.not_mem_nil e)
  | e :: es, k, hall, hk => by
    rw [jsMapGet_cons]
    by_cases hek : (e.1 == k) = true
    · rw [if_pos hek, hall e (List.mem_cons_self e es)]
    · rw [if_neg hek]
      apply jsMapGet_const_values v es k (fun x hx => hall x (List.mem_cons_of_mem e hx))
      rcases hk with ⟨w, hw, hwk⟩
      rcases List.mem_cons.mp hw with h1 | h1
      · subst h1
        exact absurd (by simp [hwk]) hek
      · exact ⟨w, h1, hwk⟩

theorem jsMapGet_foldl_set_not_mem {α : Type} (v : α) :
    ∀ (cs : List String) (m : List (String × α)) (c : String), c ∉ cs →
      jsMapGet (cs.foldl (fun m2 x => jsMapSet m2 x v) m) c = jsMapGet m c
  | [], _, _, _ => rfl
  | x :: cs, m, c, h => by
    rw [List.foldl_cons,
      jsMapGet_foldl_set_not_mem v cs _ c (fun hc => h (List.mem_cons_of_mem x hc))]
    exact jsMapGet_set_other m x c v (fun he => h (he ▸ List.mem_cons_self x cs))

theorem jsMapGet_foldl_set_mem {α : Type} (v : α) :
    ∀ (cs : List String) (m : List (String × α)) (c : String), c ∈ cs →
      jsMapGet (cs.foldl (fun m2 x => jsMapSet m2 x v) m) c = some v
  | [], _, _, h => absurd h (List.not_mem_nil _)
  | x :: cs, m, c, h => by
    rw [List.foldl_cons]
    by_cases hc : c ∈ cs
    · exact jsMapGet_foldl_set_mem v cs _ c hc
    · have hcx : c = x := by
        rcases List.mem_cons.mp h with h1 | h1
        · exact h1
        · exact absurd h1 hc
      subst hcx
      rw [jsMapGet_foldl_set_not_mem v cs _ c hc]
      exact jsMapGet_set_self m c v

/-- C8 counterexample: in the fixed-axis variant, `totalRefresh` wholly resets
both selection maps but leaves the zoom history untouched — it is not
re-initialized to empty, contradicting the claim for that variant. -/
theorem C8_fixed_refresh_counterexample :
    (totalRefreshF ["ethane"]
      { byCompound := [("ethane", [])], byDate := [], selectedDates := [],
        previousCompound := some "ethane",
        zoomHistory := [{ xMin := 0, xMax := 1, yMin := 0, yMax := 1 }] }).zoomHistory ≠
      [] := by
  with_unfolding_all decide

/-- C8 (amended): on `totalRefresh` the variable-axis variant re-initializes
the zoom history to an empty stack for every compound and every X/Y attribute
pair, at the same point where `SelectionsByCompound` and `SelectionsByDate`
are wholly reset; the fixed-axis variant resets the selection maps identically
but leaves its (single, shared) zoom-history stack untouched. -/
theorem C8_amended_refresh_reset (compounds xOptions yOptions : List String)
    (st : UIStateV) (stF : UIStateF) (c xo yo : String)
    (hc : c ∈ compounds) (hxo : xo ∈ xOptions) (hyo : yo ∈ yOptions) :
    (∃ inner, jsMapGet (totalRefreshV compounds xOptions yOptions st).zoomHistory c =
        some inner ∧ jsMapGet inner (joinXYStrings xo yo) = some [])
    ∧ (totalRefreshV compounds xOptions yOptions st).byDate = []
    ∧ jsMapGet (totalRefreshV compounds xOptions yOptions st).byCompound c = some []
    ∧ (totalRefreshV compounds xOptions yOptions st).selectedDates = []
    ∧ (totalRefreshF compounds stF).zoomHistory = stF.zoomHistory := by
  refine ⟨?_, rfl, ?_, rfl, rfl⟩
  · refine ⟨(xOptions.map (fun xo2 =>
      yOptions.map (fun yo2 => (joinXYStrings xo2 yo2, ([] : List Limits))))).flatten,
      jsMapGet_map_const _ compounds c hc, ?_⟩
    apply jsMapGet_const_values
    · intro e he
      rcases List.mem_flatten.mp he with ⟨l, hl, hel⟩
      rcases List.mem_map.mp hl with ⟨xo2, _, rfl⟩
      rcases List.mem_map.mp hel with ⟨yo2, _, rfl⟩
      rfl
    · refine ⟨(joinXYStrings xo yo, ([] : List Limits)), ?_, rfl⟩
      apply List.mem_flatten.mpr
      refine ⟨yOptions.map (fun yo2 => (joinXYStrings xo yo2, ([] : List Limits))),
        List.mem_map.mpr ⟨xo, hxo, rfl⟩, List.mem_map.mpr ⟨yo, hyo, rfl⟩⟩
  · exact jsMapGet_foldl_set_mem [] compounds st.byCompound c hc

/-- C8 witness: one compound, one attribute pair, from a dirty state. -/
theorem C8_amended_refresh_reset_witness :
    (∃ inner, jsMapGet (totalRefreshV ["ethane"] ["date"] ["MR"]
        { byCompound := [("ethane", ["2020-01-01 00:00"])],
          byDate := [("2020-01-01 00:00", ["ethane"])],
          selectedDates := ["2020-01-01 00:00"],
          previousCompound := some "ethane",
          zoomHistory := [] }).zoomHistory "ethane" =
        some inner ∧ jsMapGet inner (joinXYStrings "date" "MR") = some [])
    ∧ (totalRefreshV ["ethane"] ["date"] ["MR"]
        { byCompound := [("ethane", ["2020-01-01 00:00"])],
          byDate := [("2020-01-01 00:00", ["ethane"])],
          selectedDates := ["2020-01-01 00:00"],
          previousCompound := some "ethane",
          zoomHistory := [] }).byDate = []
    ∧ jsMapGet (totalRefreshV ["ethane"] ["date"] ["MR"]
        { byCompound := [("ethane", ["2020-01-01 00:00"])],
          byDate := [("2020-01-01 00:00", ["ethane"])],
          selectedDates := ["2020-01-01 00:00"],
          previousCompound := some "ethane",
          zoomHistory := [] }).byCompound "ethane" = some []
    ∧ (totalRefreshV ["ethane"] ["date"] ["MR"]
        { byCompound := [("ethane", ["2020-01-01 00:00"])],
          byDate := [("2020-01-01 00:00", ["ethane"])],
          selectedDates := ["2020-01-01 00:00"],
          previousCompound := some "ethane",
          zoomHistory := [] }).selectedDates = []
    ∧ (totalRefreshF ["ethane"]
        { byCompound := [("ethane", [])], byDate := [], selectedDates := [],
          previousCompound := some "ethane", zoomHistory := [] }).zoomHistory =
      ({ byCompound := [("ethane", [])], byDate := [], selectedDates := [],
          previousCompound := some "ethane", zoomHistory := [] } : UIStateF).zoomHistory :=
  C8_amended_refresh_reset ["ethane"] ["date"] ["MR"]
    { byCompound := [("ethane", ["2020-01-01 00:00"])],
      byDate := [("2020-01-01 00:00", ["ethane"])],
      selectedDates := ["2020-01-01 00:00"],
      previousCompound := some "ethane",
      zoomHistory := [] }
    { byCompound := [("ethane", [])], byDate := [], selectedDates := [],
      previousCompound := some "ethane", zoomHistory := [] }
    "ethane" "date" "MR" (by decide) (by decide) (by decide)

/-! ### Commit / clean / toggle correctness (C1, C9, C10) -/

theorem mem_getD_some {o : Option JsSet} {x : String} (h : x ∈ o.getD []) :
    ∃ s, o = some s ∧ x ∈ s := by
  cases o with
  | none => simp at h
  | some s => exact ⟨s, rfl, h⟩

theorem commitStep_fst (c : String) (bd : List (String × JsSet)) (cs : JsSet)
    (d : String) :
    (commitStep c (bd, cs) d).1 =
      (let bd1 := match jsMapGet bd d with
        | none => jsMapSet bd d []
        | some _ => bd
      jsMapSet bd1 d (jsSetAdd ((jsMapGet bd1 d).getD []) c)) := rfl

theorem commitStep_snd (c : String) (bd : List (String × JsSet)) (cs : JsSet)
    (d : String) : (commitStep c (bd, cs) d).2 = jsSetAdd cs d := rfl

theorem commitStep_self (c : String) (bd : List (String × JsSet)) (cs : JsSet)
    (d : String) :
    c ∈ (jsMapGet (commitStep c (bd, cs) d).1 d).getD []
    ∧ d ∈ (commitStep c (bd, cs) d).2 := by
  constructor
  · rw [commitStep_fst]
    simp only [jsMapGet_set_self, Option.getD_some]
    exact (jsSetAdd_mem _ c c).mpr (Or.inr rfl)
  · rw [commitStep_snd]
    exact (jsSetAdd_mem cs d d).mpr (Or.inr rfl)

theorem commitStep_preserves_fst (c c2 : String) (k : String)
    (st : List (String × JsSet) × JsSet) (d : String)
    (h : c2 ∈ (jsMapGet st.1 k).getD []) :
    c2 ∈ (jsMapGet (commitStep c st d).1 k).getD [] := by
  obtain ⟨s, hs, hc2⟩ := mem_getD_some h
  obtain ⟨bd, cs⟩ := st
  rw [commitStep_fst]
  by_cases hkd : k = d
  · subst hkd
    simp only [hs, jsMapGet_set_self, Option.getD_some]
    exact (jsSetAdd_mem s c c2).mpr (Or.inl hc2)
  · simp only
    cases hq : jsMapGet bd d with
    | none =>
      rw [jsMapGet_set_other _ _ _ _ hkd, jsMapGet_set_other _ _ _ _ hkd, hs]
      exact hc2
    | some s2 =>
      rw [jsMapGet_set_other _ _ _ _ hkd, hs]
      exact hc2

theorem commitStep_preserves_snd (c : String) (k : String)
    (st : List (String × JsSet) × JsSet) (d : String) (h : k ∈ st.2) :
    k ∈ (commitStep c st d).2 := by
  obtain ⟨bd, cs⟩ := st
  rw [commitStep_snd]
  exact (jsSetAdd_mem cs d k).mpr (Or.inl h)

theorem foldl_preserve {α β : Type} (f : α → β → α) (P : α → Prop)
    (hstep : ∀ a b, P a → P (f a b)) :
    ∀ (l : List β) (a : α), P a → P (l.foldl f a)
  | [], _, h => h
  | b :: l, a, h => foldl_preserve f P hstep l (f a b) (hstep a b h)

theorem commit_fold_mem (c : String) :
    ∀ (sel : JsSet) (bd : List (String × JsSet)) (cs : JsSet) (d : String), d ∈ sel →
      c ∈ (jsMapGet (sel.foldl (commitStep c) (bd, cs)).1 d).getD []
      ∧ d ∈ (sel.foldl (commitStep c) (bd, cs)).2
  | [], _, _, _, h => absurd h (List.not_mem_nil _)
  | e :: sel, bd, cs, d, h => by
    rw [List.foldl_cons]
    by_cases hd : d ∈ sel
    · have := commit_fold_mem c sel (commitStep c (bd, cs) e).1
        (commitStep c (bd, cs) e).2 d hd
      simpa using this
    · have hde : d = e := by
        rcases List.mem_cons.mp h with h1 | h1
        · exact h1
        · exact absurd h1 hd
      subst hde
      have hstart := commitStep_self c bd cs d
      have hpres : ∀ (st : List (String × JsSet) × JsSet) (w : String),
          (c ∈ (jsMapGet st.1 d).getD [] ∧ d ∈ st.2) →
          (c ∈ (jsMapGet (commitStep c st w).1 d).getD [] ∧ d ∈ (commitStep c st w).2) :=
        fun st w hw =>
          ⟨commitStep_preserves_fst c c d st w hw.1, commitStep_preserves_snd c d st w hw.2⟩
      have := foldl_preserve (commitStep c)
        (fun st => c ∈ (jsMapGet st.1 d).getD [] ∧ d ∈ st.2) hpres sel
        (commitStep c (bd, cs) d) (by simpa using hstart)
      simpa using this

theorem commit_fold_cs_subset (c : String) :
    ∀ (sel : JsSet) (bd : List (String × JsSet)) (cs : JsSet) (d : String),
      d ∈ (sel.foldl (commitStep c) (bd, cs)).2 → d ∈ cs ∨ d ∈ sel
  | [], _, _, _, h => Or.inl h
  | e :: sel, bd, cs, d, h => by
    rw [List.foldl_cons] at h
    have := commit_fold_cs_subset c sel (commitStep c (bd, cs) e).1
      (commitStep c (bd, cs) e).2 d (by simpa using h)
    rcases this with h1 | h1
    · rw [commitStep_snd] at h1
      rcases (jsSetAdd_mem cs e d).mp h1 with h2 | h2
      · exact Or.inl h2
      · exact Or.inr (by rw [h2]; exact List.mem_cons_self e sel)
    · exact Or.inr (List.mem_cons_of_mem e h1)

theorem commitSelections_eq (byDate byCompound : List (String × JsSet))
    (sel : JsSet) (c : String) (cs : JsSet) (hc : jsMapGet byCompound c = some cs) :
    commitSelections byDate byCompound sel c =
      some ((sel.foldl (commitStep c) (byDate, cs)).1,
        jsMapSet byCompound c (sel.foldl (commitStep c) (byDate, cs)).2) := by
  unfold commitSelections
  rw [hc]

/-- The invariant under which `updateClicked`'s removal branch is safe: every
date-key in the compound's (in-progress = persisted, by the render aliasing)
set has a ledger entry containing the compound. -/
def ledgerInv (byDate byCompound : List (String × JsSet)) (c : String) : Prop :=
  ∀ d ∈ (jsMapGet byCompound c).getD [], c ∈ (jsMapGet byDate d).getD []

theorem commit_establishes_inv (byDate byCompound : List (String × JsSet))
    (sel : JsSet) (c : String) (hc : jsMapGet byCompound c = some sel) :
    ∃ bd2 bc2, commitSelections byDate byCompound sel c = some (bd2, bc2)
      ∧ ledgerInv bd2 bc2 c := by
  refine ⟨_, _, commitSelections_eq byDate byCompound sel c sel hc, ?_⟩
  intro d hd
  rw [jsMapGet_set_self] at hd
  simp only [Option.getD_some] at hd
  have hd2 : d ∈ sel := by
    rcases commit_fold_cs_subset c sel byDate sel d hd with h | h
    · exact h
    · exact h
  exact (commit_fold_mem c sel byDate sel d hd2).1

theorem cleanStep_other_iff (c : String) (bd : List (String × JsSet)) (d : String)
    (k c2 : String) (hc2 : c2 ≠ c) :
    c2 ∈ (jsMapGet (cleanStep c bd d) k).getD [] ↔ c2 ∈ (jsMapGet bd k).getD [] := by
  rcases hq : jsMapGet bd d with _ | s
  · simp only [cleanStep, hq]
  · simp only [cleanStep, hq]
    by_cases hlen : (jsSetDelete s c).length = 0
    · rw [if_pos hlen]
      by_cases hkd : k = d
      · subst hkd
        rw [jsMapDelete_get_self, hq]
        simp only [Option.getD_none, Option.getD_some]
        constructor
        · intro h
          exact absurd h (List.not_mem_nil c2)
        · intro h
          have hmem : c2 ∈ jsSetDelete s c := (jsSetDelete_mem s c c2).mpr ⟨h, hc2⟩
          rw [List.length_eq_zero] at hlen
          rw [hlen] at hmem
          exact absurd hmem (List.not_mem_nil c2)
      · rw [jsMapDelete_get_other _ _ _ hkd]
    · rw [if_neg hlen]
      by_cases hkd : k = d
      · subst hkd
        rw [jsMapGet_set_self, hq]
        simp only [Option.getD_some]
        exact ⟨fun h => ((jsSetDelete_mem s c c2).mp h).1,
          fun h => (jsSetDelete_mem s c c2).mpr ⟨h, hc2⟩⟩
      · rw [jsMapGet_set_other _ _ _ _ hkd]

theorem cleanStep_no_add (c : String) (bd : List (String × JsSet)) (d k : String)
    (h : c ∉ (jsMapGet bd k).getD []) :
    c ∉ (jsMapGet (cleanStep c bd d) k).getD [] := by
  rcases hq : jsMapGet bd d with _ | s
  · simpa only [cleanStep, hq] using h
  · simp only [cleanStep, hq]
    by_cases hlen : (jsSetDelete s c).length = 0
    · rw [if_pos hlen]
      by_cases hkd : k = d
      · subst hkd
        rw [jsMapDelete_get_self]
        simp
      · rw [jsMapDelete_get_other _ _ _ hkd]
        exact h
    · rw [if_neg hlen]
      by_cases hkd : k = d
      · subst hkd
        rw [jsMapGet_set_self]
        simp only [Option.getD_some]
        intro hmem
        exact ((jsSetDelete_mem s c c).mp hmem).2 rfl
      · rw [jsMapGet_set_other _ _ _ _ hkd]
        exact h

theorem cleanStep_removes (c : String) (bd : List (String × JsSet)) (d : String) :
    c ∉ (jsMapGet (cleanStep c bd d) d).getD [] := by
  rcases hq : jsMapGet bd d with _ | s
  · simp only [cleanStep, hq, Option.getD_none]
    exact List.not_mem_nil c
  · simp only [cleanStep, hq]
    by_cases hlen : (jsSetDelete s c).length = 0
    · rw [if_pos hlen, jsMapDelete_get_self]
      simp
    · rw [if_neg hlen, jsMapGet_set_self]
      simp only [Option.getD_some]
      intro hmem
      exact ((jsSetDelete_mem s c c).mp hmem).2 rfl

theorem clean_fold_other_iff (c : String) :
    ∀ (cset : JsSet) (bd : List (String × JsSet)) (k c2 : String), c2 ≠ c →
      (c2 ∈ (jsMapGet (cset.foldl (cleanStep c) bd) k).getD [] ↔
        c2 ∈ (jsMapGet bd k).getD [])
  | [], _, _, _, _ => Iff.rfl
  | e :: cset, bd, k, c2, hc2 => by
    rw [List.foldl_cons]
    exact (clean_fold_other_iff c cset (cleanStep c bd e) k c2 hc2).trans
      (cleanStep_other_iff c bd e k c2 hc2)

theorem clean_fold_removes (c : String) :
    ∀ (cset : JsSet) (bd : List (String × JsSet)) (d : String), d ∈ cset →
      c ∉ (jsMapGet (cset.foldl (cleanStep c) bd) d).getD []
  | [], _, _, h => absurd h (List.not_mem_nil _)
  | e :: cset, bd, d, h => by
    rw [List.foldl_cons]
    by_cases hd : d ∈ cset
    · exact clean_fold_removes c cset (cleanStep c bd e) d hd
    · have hde : d = e := by
        rcases List.mem_cons.mp h with h1 | h1
        · exact h1
        · exact absurd h1 hd
      subst hde
      exact foldl_preserve (cleanStep c) (fun m => c ∉ (jsMapGet m d).getD [])
        (fun m w hm => cleanStep_no_add c m w d hm) cset (cleanStep c bd d)
        (cleanStep_removes c bd d)

theorem cleanPlot_eq (byDate byCompound : List (String × JsSet)) (c : String)
    (cset : JsSet) (hc : jsMapGet byCompound c = some cset) :
    cleanPlot byDate byCompound c =
      some (cset.foldl (cleanStep c) byDate, jsMapSet byCompound c []) := by
  unfold cleanPlot
  rw [hc]

theorem updateClicked_eq (byDate byCompound : List (String × JsSet))
    (c dk : String) (rm : Bool) (sel : JsSet) (hc : jsMapGet byCompound c = some sel) :
    updateClicked byDate byCompound c dk rm =
      if dk ∈ sel ∧ rm = true then
        match jsMapGet byDate dk with
        | none => none
        | some ds =>
          commitSelections
            (if (jsSetDelete ds c).length = 0 then jsMapDelete byDate dk
             else jsMapSet byDate dk (jsSetDelete ds c))
            (jsMapSet byCompound c (jsSetDelete sel dk)) (jsSetDelete sel dk) c
      else
        commitSelections byDate (jsMapSet byCompound c (jsSetAdd sel dk))
          (jsSetAdd sel dk) c := by
  unfold updateClicked
  rw [hc]

/-- C1: for every compound `c` with an entry in `selectionsByCompound`,
`commitSelections(c)` puts every in-progress date-key into a
`selectionsByDate` entry containing `c` and into `c`'s persisted set;
`cleanPlot(c)` removes `c` from the ledger entry of every one of its persisted
dates while leaving every other compound's membership in every date entry
unchanged; and concretely, committing `"ethane"` then `"propane"` with
in-progress selection `{"2020-01-01 00:00"}` yields
`SelectionsByDate["2020-01-01 00:00"] = {"ethane", "propane"}`, after which
clearing `"ethane"` leaves `{"propane"}`. -/
theorem C1_commit_clean_correct :
    (∀ (byDate byCompound : List (String × JsSet)) (sel : JsSet) (c : String)
      (cs : JsSet), jsMapGet byCompound c = some cs →
      ∃ bd2 bc2, commitSelections byDate byCompound sel c = some (bd2, bc2) ∧
        ∀ d ∈ sel, c ∈ (jsMapGet bd2 d).getD [] ∧ d ∈ (jsMapGet bc2 c).getD [])
    ∧ (∀ (byDate byCompound : List (String × JsSet)) (c : String)
        (bd2 bc2 : List (String × JsSet)),
        cleanPlot byDate byCompound c = some (bd2, bc2) →
        (∀ d c2 : String, c2 ≠ c →
          (c2 ∈ (jsMapGet bd2 d).getD [] ↔ c2 ∈ (jsMapGet byDate d).getD []))
        ∧ (∀ cset, jsMapGet byCompound c = some cset →
            ∀ d ∈ cset, c ∉ (jsMapGet bd2 d).getD []))
    ∧ (commitSelections [] [("ethane", []), ("propane", [])]
          ["2020-01-01 00:00"] "ethane" =
        some ([("2020-01-01 00:00", ["ethane"])],
          [("ethane", ["2020-01-01 00:00"]), ("propane", [])])
      ∧ commitSelections [("2020-01-01 00:00", ["ethane"])]
          [("ethane", ["2020-01-01 00:00"]), ("propane", [])]
          ["2020-01-01 00:00"] "propane" =
        some ([("2020-01-01 00:00", ["ethane", "propane"])],
          [("ethane", ["2020-01-01 00:00"]), ("propane", ["2020-01-01 00:00"])])
      ∧ cleanPlot [("2020-01-01 00:00", ["ethane", "propane"])]
          [("ethane", ["2020-01-01 00:00"]), ("propane", ["2020-01-01 00:00"])]
          "ethane" =
        some ([("2020-01-01 00:00", ["propane"])],
          [("ethane", []), ("propane", ["2020-01-01 00:00"])])) := by
  refine ⟨?_, ?_, by decide, by decide, by decide⟩
  · intro byDate byCompound sel c cs hc
    refine ⟨_, _, commitSelections_eq byDate byCompound sel c cs hc, ?_⟩
    intro d hd
    constructor
    · exact (commit_fold_mem c sel byDate cs d hd).1
    · rw [jsMapGet_set_self]
      simp only [Option.getD_some]
      exact (commit_fold_mem c sel byDate cs d hd).2
  · intro byDate byCompound c bd2 bc2 heq
    rcases hc : jsMapGet byCompound c with _ | cset
    · rw [cleanPlot, hc] at heq
      cases heq
    · rw [cleanPlot_eq byDate byCompound c cset hc] at heq
      simp only [Option.some.injEq, Prod.mk.injEq] at heq
      obtain ⟨h1, h2⟩ := heq
      subst h1
      constructor
      · intro d c2 hc2
        exact clean_fold_other_iff c cset byDate d c2 hc2
      · intro cset2 hc3 d hd
        cases hc3
        exact clean_fold_removes c cset byDate d hd

/-- C1 witness: the commit conjunct at the example's initial state. -/
theorem C1_commit_clean_correct_witness :
    ∃ bd2 bc2, commitSelections [] [("ethane", []), ("propane", [])]
        ["2020-01-01 00:00"] "ethane" = some (bd2, bc2) ∧
      ∀ d ∈ ["2020-01-01 00:00"], "ethane" ∈ (jsMapGet bd2 d).getD []
        ∧ d ∈ (jsMapGet bc2 "ethane").getD [] :=
  C1_commit_clean_correct.1 [] [("ethane", []), ("propane", [])]
    ["2020-01-01 00:00"] "ethane" [] (by decide)

/-- C9: a click that adds a date-key is committed immediately: when
`previousCompound = c`, `selectedDates` aliases `selectionsByCompound[c]`, and
the add branch is taken, `updateClicked` returns with the key already in
`SelectionsByCompound[c]` and `c` already in `SelectionsByDate[key]` — no
separate save action is involved. -/
theorem C9_immediate_commit (byDate byCompound : List (String × JsSet))
    (c dk : String) (rm : Bool) (sel : JsSet)
    (hc : jsMapGet byCompound c = some sel) (hadd : ¬(dk ∈ sel ∧ rm = true)) :
    ∃ bd2 bc2, updateClicked byDate byCompound c dk rm = some (bd2, bc2)
      ∧ dk ∈ (jsMapGet bc2 c).getD [] ∧ c ∈ (jsMapGet bd2 dk).getD [] := by
  rw [updateClicked_eq byDate byCompound c dk rm sel hc, if_neg hadd]
  have hdk : dk ∈ jsSetAdd sel dk := (jsSetAdd_mem sel dk dk).mpr (Or.inr rfl)
  have hc2 : jsMapGet (jsMapSet byCompound c (jsSetAdd sel dk)) c =
      some (jsSetAdd sel dk) := jsMapGet_set_self byCompound c (jsSetAdd sel dk)
  refine ⟨_, _, commitSelections_eq byDate _ (jsSetAdd sel dk) c (jsSetAdd sel dk) hc2,
    ?_, ?_⟩
  · rw [jsMapGet_set_self]
    simp only [Option.getD_some]
    exact (commit_fold_mem c (jsSetAdd sel dk) byDate (jsSetAdd sel dk) dk hdk).2
  · exact (commit_fold_mem c (jsSetAdd sel dk) byDate (jsSetAdd sel dk) dk hdk).1

/-- C9 witness: a first click on an empty ethane selection. -/
theorem C9_immediate_commit_witness :
    ∃ bd2 bc2, updateClicked [] [("ethane", [])] "ethane" "2020-01-01 00:00" false =
        some (bd2, bc2)
      ∧ "2020-01-01 00:00" ∈ (jsMapGet bc2 "ethane").getD []
      ∧ "ethane" ∈ (jsMapGet bd2 "2020-01-01 00:00").getD [] :=
  C9_immediate_commit [] [("ethane", [])] "ethane" "2020-01-01 00:00" false []
    (by decide) (by decide)

/-- C10: under the invariant that every date-key in the compound's set has a
`selectionsByDate` entry containing the compound (established by the commit at
the end of every previous `updateClicked`), the unguarded
`selectionsByDate.get(d).delete/size` in the removal branch never dereferences
`undefined`: `updateClicked` always returns (never throws), and the invariant
is preserved, so the error branch stays unreachable. -/
theorem C10_remove_safe (byDate byCompound : List (String × JsSet))
    (c dk : String) (rm : Bool) (sel : JsSet)
    (hc : jsMapGet byCompound c = some sel)
    (hinv : ledgerInv byDate byCompound c) :
    ∃ bd2 bc2, updateClicked byDate byCompound c dk rm = some (bd2, bc2)
      ∧ ledgerInv bd2 bc2 c := by
  rw [updateClicked_eq byDate byCompound c dk rm sel hc]
  by_cases hrm : dk ∈ sel ∧ rm = true
  · rw [if_pos hrm]
    have hdk : c ∈ (jsMapGet byDate dk).getD [] := by
      apply hinv
      rw [hc]
      simpa using hrm.1
    obtain ⟨ds, hds, _⟩ := mem_getD_some hdk
    rw [hds]
    exact commit_establishes_inv _ _ (jsSetDelete sel dk) c
      (jsMapGet_set_self byCompound c (jsSetDelete sel dk))
  · rw [if_neg hrm]
    exact commit_establishes_inv _ _ (jsSetAdd sel dk) c
      (jsMapGet_set_self byCompound c (jsSetAdd sel dk))

/-- C10 witness: removing the only selected date of ethane from a committed
state. -/
theorem C10_remove_safe_witness :
    ∃ bd2 bc2, updateClicked [("2020-01-01 00:00", ["ethane"])]
        [("ethane", ["2020-01-01 00:00"])] "ethane" "2020-01-01 00:00" true =
        some (bd2, bc2)
      ∧ ledgerInv bd2 bc2 "ethane" :=
  C10_remove_safe [("2020-01-01 00:00", ["ethane"])]
    [("ethane", ["2020-01-01 00:00"])] "ethane" "2020-01-01 00:00" true
    ["2020-01-01 00:00"] (by decide)
    (by
      intro d hd
      simp only [jsMapGet, List.find?] at hd ⊢
      simp at hd
      subst hd
      decide)
